import Mathlib

/-!
Verification of the bitchat-cli core against its specification.

This file gives a shallow embedding of the repository's core components:
* the wire packet codec (`protocol.py`, `BitchatPacket.pack` / `BitchatPacket.unpack`),
* the message codec (`protocol.py`, `BitchatMessage.to_payload` / `BitchatMessage.from_payload`),
* the chat state peer bookkeeping (`chat_state.py`, `ChatState.add_peer` / `ChatState.remove_peer`),
* the broadcast dispatcher and the connection-manager scheduling
  (`ble_service.py`, `BLEService.broadcast` / `scan_and_connect` / `connect_to_device` /
  `on_disconnect`).

Bytes are modelled as `Nat` (each in `[0, 255]` where produced by the code), byte strings as
`List Nat`, Python `str` as Lean `String` (a sequence of unicode code points, as in Python),
and Python `int` as `Int` (`Nat` where the source only ever holds non-negative values).
Fallible operations return `Option` or `Except`.
-/

namespace Bitchat

/-! ## Packet codec (`protocol.py`) -/

/-- `VERSION = 1` (protocol.py line 10). -/
def VERSION : Nat := 1

/-- `SENDER_ID_SIZE = 8` (protocol.py line 11). -/
def SENDER_ID_SIZE : Nat := 8

/-- `RECIPIENT_ID_SIZE = 8` (protocol.py line 12). -/
def RECIPIENT_ID_SIZE : Nat := 8

/-- `SIGNATURE_SIZE = 64` (protocol.py line 13). -/
def SIGNATURE_SIZE : Nat := 64

/-- `BROADCAST_RECIPIENT = b'\xff' * 8` (protocol.py line 14). -/
def BROADCAST_RECIPIENT : List Nat := List.replicate RECIPIENT_ID_SIZE 0xff

/-- `class MessageType(Enum)` (protocol.py lines 17-21). -/
inductive MessageType where
  | ANNOUNCE
  | KEY_EXCHANGE
  | LEAVE
  | MESSAGE
deriving DecidableEq, Repr

/-- The `.value` of each `MessageType` enum member. -/
def MessageType.val : MessageType → Nat
  | .ANNOUNCE => 0x01
  | .KEY_EXCHANGE => 0x02
  | .LEAVE => 0x03
  | .MESSAGE => 0x04

/-- `MessageType(n)`: enum lookup by value; `none` models the `ValueError`
raised (and caught in `unpack`) for an unknown value. -/
def MessageType.fromVal (n : Nat) : Option MessageType :=
  if n = 0x01 then some .ANNOUNCE
  else if n = 0x02 then some .KEY_EXCHANGE
  else if n = 0x03 then some .LEAVE
  else if n = 0x04 then some .MESSAGE
  else none

/-- `Flags.HAS_RECIPIENT = 0x01` (protocol.py line 25). -/
def Flags.HAS_RECIPIENT : Nat := 0x01

/-- `Flags.HAS_SIGNATURE = 0x02` (protocol.py line 26). -/
def Flags.HAS_SIGNATURE : Nat := 0x02

/-- `@dataclass class BitchatPacket` (protocol.py lines 29-39).  The
`timestamp` dataclass default draws the current wall-clock time, so the field
carries no default here and is always supplied explicitly. -/
structure BitchatPacket where
  version : Nat := VERSION
  type : MessageType := .MESSAGE
  ttl : Nat := 7
  timestamp : Nat
  sender_id : List Nat := List.replicate SENDER_ID_SIZE 0
  recipient_id : Option (List Nat) := none
  payload : List Nat := []
  signature : Option (List Nat) := none
deriving DecidableEq, Repr

/-- Big-endian `Q` (8-byte) encoding used by `struct.pack('>... Q ...')`. -/
def be8 (n : Nat) : List Nat :=
  [n / 2 ^ 56 % 256, n / 2 ^ 48 % 256, n / 2 ^ 40 % 256, n / 2 ^ 32 % 256,
   n / 2 ^ 24 % 256, n / 2 ^ 16 % 256, n / 2 ^ 8 % 256, n % 256]

/-- `struct.pack('8s', s)`: a bytes value shorter than 8 is zero-padded on the
right, a longer one is truncated. -/
def pad8 (s : List Nat) : List Nat :=
  s.take 8 ++ List.replicate (8 - s.length) 0

/-- `BitchatPacket.pack` (protocol.py lines 41-62).  `struct.pack` raises
`struct.error` when a `B`/`Q`/`H` argument is out of range; that exception is
not caught in `pack`, modelled as `none`.  The flags byte is derived from
presence of the optional fields (`is not None`), while the body appends them
under Python truthiness (`if self.recipient_id:`), so a present-but-empty
optional field sets its flag without contributing bytes — `Option.getD []`
renders exactly that append. -/
def BitchatPacket.pack (p : BitchatPacket) : Option (List Nat) :=
  let flags : Nat :=
    (if p.recipient_id.isSome then Flags.HAS_RECIPIENT else 0) |||
    (if p.signature.isSome then Flags.HAS_SIGNATURE else 0)
  if p.version < 256 ∧ p.ttl < 256 ∧ p.timestamp < 2 ^ 64 ∧ p.payload.length < 65536 then
    some ([p.version, p.type.val, p.ttl] ++ be8 p.timestamp ++
      [flags, p.payload.length / 256, p.payload.length % 256] ++ pad8 p.sender_id ++
      p.recipient_id.getD [] ++ p.payload ++ p.signature.getD [])
  else
    none

/-- The error taxonomy of spec §4.1/§7 for `unpack`.  The source collapses
every failure into `return None`; each constructor labels one of the distinct
`return None` sites (respectively: a failed length check, the version check at
line 77, and the `ValueError` from `MessageType(msg_type_val)`). -/
inductive UnpackErr where
  | Truncated
  | VersionMismatch
  | UnknownType
deriving DecidableEq, Repr

/-- Big-endian value of a byte list, as read by `struct.unpack`. -/
def beVal (l : List Nat) : Nat :=
  l.foldl (fun a b => a * 256 + b) 0

/-- `BitchatPacket.unpack` (protocol.py lines 64-109), with each `return None`
site labelled by the check that fails (see `UnpackErr`).  The header base size
`struct.calcsize('>BB B Q B H')` is 14, so the initial guard requires
`14 + SENDER_ID_SIZE = 22` bytes; offsets then mirror the source's running
`offset` variable (`30 = 22 + RECIPIENT_ID_SIZE` when the recipient flag is
set). -/
def BitchatPacket.unpack (data : List Nat) : Except UnpackErr BitchatPacket :=
  if data.length < 22 then .error .Truncated
  else if data.getD 0 0 ≠ VERSION then .error .VersionMismatch
  else
    let msg_type_val := data.getD 1 0
    let ttl := data.getD 2 0
    let timestamp := beVal ((data.drop 3).take 8)
    let flags := data.getD 11 0
    let payload_len := 256 * data.getD 12 0 + data.getD 13 0
    let sender_id := (data.drop 14).take 8
    let mkRes := fun (recipient_id : Option (List Nat)) (payload : List Nat)
        (sig : Option (List Nat)) =>
      match MessageType.fromVal msg_type_val with
      | none => Except.error UnpackErr.UnknownType
      | some ty => Except.ok
          { version := data.getD 0 0, type := ty, ttl := ttl, timestamp := timestamp,
            sender_id := sender_id, recipient_id := recipient_id, payload := payload,
            signature := sig }
    let core := fun (recipient_id : Option (List Nat)) (off : Nat) =>
      if data.length < off + payload_len then Except.error UnpackErr.Truncated
      else
        let payload := (data.drop off).take payload_len
        if flags &&& Flags.HAS_SIGNATURE ≠ 0 then
          if data.length < off + payload_len + SIGNATURE_SIZE then
            Except.error UnpackErr.Truncated
          else
            mkRes recipient_id payload
              (some ((data.drop (off + payload_len)).take SIGNATURE_SIZE))
        else mkRes recipient_id payload none
    if flags &&& Flags.HAS_RECIPIENT ≠ 0 then
      if data.length < 22 + RECIPIENT_ID_SIZE then .error .Truncated
      else core (some ((data.drop 22).take 8)) 30
    else core none 22

/-- `unpack` as the source literally has it: every error is `None`. -/
def BitchatPacket.unpackOpt (data : List Nat) : Option BitchatPacket :=
  (BitchatPacket.unpack data).toOption

instance {ε α : Type} [DecidableEq ε] [DecidableEq α] : DecidableEq (Except ε α)
  | .error a, .error b => decidable_of_iff (a = b) (by simp)
  | .error _, .ok _ => isFalse (by simp)
  | .ok _, .error _ => isFalse (by simp)
  | .ok a, .ok b => decidable_of_iff (a = b) (by simp)

/-! ## Message codec (`protocol.py`, `BitchatMessage`)

Python `str` values are sequences of unicode code points, modelled as Lean
`String`/`List Char`; `bytes` is `List Nat`.  `str.encode('utf-8')` and
`bytes.decode('utf-8')` are modelled by `utf8Encode`/`utf8Decode` below
(standard UTF-8; the strict decoder rejects continuation errors, overlong
forms, surrogates and out-of-range values, as Python's does). -/

/-- UTF-8 encoding of one code point (`str.encode('utf-8')`, per char). -/
def utf8EncodeChar (c : Char) : List Nat :=
  let n := c.toNat
  if n < 0x80 then [n]
  else if n < 0x800 then [0xC0 + n / 0x40, 0x80 + n % 0x40]
  else if n < 0x10000 then
    [0xE0 + n / 0x1000, 0x80 + n / 0x40 % 0x40, 0x80 + n % 0x40]
  else
    [0xF0 + n / 0x40000, 0x80 + n / 0x1000 % 0x40, 0x80 + n / 0x40 % 0x40,
     0x80 + n % 0x40]

/-- UTF-8 encoding of a string (`str.encode('utf-8')`). -/
def utf8Encode : List Char → List Nat
  | [] => []
  | c :: cs => utf8EncodeChar c ++ utf8Encode cs

/-- Is `b` a UTF-8 continuation byte? -/
def utf8Cont (b : Nat) : Bool := decide (0x80 ≤ b ∧ b < 0xC0)

/-- Strict UTF-8 decoding, one byte at a time.  `pending = some (acc, need, mn)`
while inside a multi-byte sequence: `acc` is the value accumulated so far,
`need` the number of continuation bytes still expected, and `mn` the smallest
code point representable at this sequence length (to reject overlong forms, as
Python's strict decoder does).  Surrogates and values above `0x10FFFF` are
rejected when the sequence completes. -/
def utf8DecodeAux : Option (Nat × Nat × Nat) → List Nat → Option (List Char)
  | none, [] => some []
  | some _, [] => none
  | none, b :: bs =>
    if b < 0x80 then (utf8DecodeAux none bs).map (fun cs => Char.ofNat b :: cs)
    else if b < 0xC0 then none
    else if b < 0xE0 then utf8DecodeAux (some (b - 0xC0, 1, 0x80)) bs
    else if b < 0xF0 then utf8DecodeAux (some (b - 0xE0, 2, 0x800)) bs
    else if b < 0xF8 then utf8DecodeAux (some (b - 0xF0, 3, 0x10000)) bs
    else none
  | some (acc, need, mn), b :: bs =>
    if utf8Cont b then
      let acc' := acc * 0x40 + (b - 0x80)
      if need = 1 then
        if mn ≤ acc' ∧ (acc' < 0xD800 ∨ 0xDFFF < acc') ∧ acc' < 0x110000 then
          (utf8DecodeAux none bs).map (fun cs => Char.ofNat acc' :: cs)
        else none
      else utf8DecodeAux (some (acc', need - 1, mn)) bs
    else none

/-- Strict UTF-8 decoding (`bytes.decode('utf-8')`); `none` models
`UnicodeDecodeError`. -/
def utf8Decode (bytes : List Nat) : Option (List Char) :=
  utf8DecodeAux none bytes

/-- Decimal digits of a natural number, most significant first, with explicit
structural fuel so the definition computes by kernel reduction; `fuel` bounds
the number of digits. -/
def natToCharsCore : Nat → Nat → List Char
  | 0, _ => []
  | fuel + 1, n =>
    if n < 10 then [Char.ofNat (48 + n)]
    else natToCharsCore fuel (n / 10) ++ [Char.ofNat (48 + n % 10)]

/-- Decimal digits of a natural number, most significant first (`str(n)`);
`n + 1` units of fuel always suffice since `n < 10 ^ (n + 1)`. -/
def natToChars (n : Nat) : List Char := natToCharsCore (n + 1) n

/-- `str(i)` for a Python `int`. -/
def intToChars (i : Int) : List Char :=
  if i < 0 then '-' :: natToChars i.natAbs else natToChars i.toNat

/-- Is `c` an ASCII decimal digit? -/
def isDigit (c : Char) : Bool := decide (48 ≤ c.toNat ∧ c.toNat ≤ 57)

/-- Accumulating decimal parse; `none` on the first non-digit. -/
def parseDigitsAux : List Char → Nat → Option Nat
  | [], acc => some acc
  | c :: cs, acc =>
    if isDigit c then parseDigitsAux cs (acc * 10 + (c.toNat - 48)) else none

/-- Python `int(str)` on an optional sign followed by decimal digits; `none`
models the `ValueError` caught in `from_payload`.  (Python additionally strips
surrounding whitespace and allows underscore digit separators; no such input
arises from this codec and those extensions are not modelled.) -/
def pyInt (str : List Char) : Option Int :=
  match str with
  | [] => none
  | c :: cs =>
    if c = '-' then
      if cs = [] then none else (parseDigitsAux cs 0).map (fun (n : Nat) => -(n : Int))
    else if c = '+' then
      if cs = [] then none else (parseDigitsAux cs 0).map (fun (n : Nat) => (n : Int))
    else (parseDigitsAux (c :: cs) 0).map (fun (n : Nat) => (n : Int))

/-- Python `decoded_payload.split('|')` (protocol.py line 131). -/
def splitOnPipe : List Char → List (List Char)
  | [] => [[]]
  | c :: rest =>
    if c = '|' then [] :: splitOnPipe rest
    else
      match splitOnPipe rest with
      | s :: ss => (c :: s) :: ss
      | [] => [[c]]

/-- The `msg_data` dict built by `from_payload` (protocol.py lines 132-137):
split each `|`-segment at its first `:`; segments without a `:` are skipped.
Python dict assignment lets a later segment override an earlier one with the
same key, so entries are prepended and `List.lookup` (first match) models
`dict.get`. -/
def msgPairs (cs : List Char) : List (String × String) :=
  (splitOnPipe cs).foldl
    (fun m part =>
      if part.contains ':' then
        (String.mk (part.takeWhile (fun c => c != ':')),
         String.mk ((part.dropWhile (fun c => c != ':')).tail)) :: m
      else m)
    []

/-- `@dataclass class BitchatMessage` (protocol.py lines 112-120).  The `id`
and `timestamp` dataclass defaults draw a fresh UUID and the wall clock, so
they carry no default here and are always supplied explicitly. -/
structure BitchatMessage where
  id : String
  sender : String := ""
  content : String := ""
  timestamp : Int
  is_private : Bool := false
  channel : Option String := none
deriving DecidableEq, Repr

/-- The text form built by `BitchatMessage.to_payload` (protocol.py line 124):
`f"id:{id}|s:{sender}|c:{content}|t:{timestamp}|p:{is_private}|ch:{channel or ''}"`.
A Python bool renders as `True`/`False`, and `channel or ''` renders `None`
and the empty string both as the empty string. -/
def BitchatMessage.encodeChars (m : BitchatMessage) : List Char :=
  "id:".data ++ m.id.data ++ "|s:".data ++ m.sender.data ++ "|c:".data ++
  m.content.data ++ "|t:".data ++ intToChars m.timestamp ++ "|p:".data ++
  (if m.is_private then "True".data else "False".data) ++ "|ch:".data ++
  (m.channel.getD "").data

/-- `BitchatMessage.to_payload` (protocol.py lines 122-124). -/
def BitchatMessage.to_payload (m : BitchatMessage) : List Nat :=
  utf8Encode m.encodeChars

/-- `BitchatMessage.from_payload` (protocol.py lines 126-153).  `fid` is the
fresh `str(uuid.uuid4())` drawn by the `id` default when the `id` key is
missing (a nondeterministic input of the code, passed as a parameter here).
`none` models the `return None` sites: missing mandatory `c` key, and the
caught `UnicodeDecodeError`/`ValueError` from `decode('utf-8')`/`int`. -/
def BitchatMessage.from_payload (fid : String) (payload : List Nat) :
    Option BitchatMessage :=
  match utf8Decode payload with
  | none => none
  | some chars =>
    let msg_data := msgPairs chars
    match msg_data.lookup "c" with
    | none => none
    | some content =>
      match (match msg_data.lookup "t" with
             | none => some (0 : Int)
             | some v => pyInt v.data) with
      | none => none
      | some t =>
        some { id := (msg_data.lookup "id").getD fid,
               sender := (msg_data.lookup "s").getD "unknown",
               content := content,
               timestamp := t,
               is_private := msg_data.lookup "p" == some "True",
               channel := match msg_data.lookup "ch" with
                          | some v => if v = "" then none else some v
                          | none => none }

/-! ## Chat state (`chat_state.py`) -/

/-- `class ChatState` (chat_state.py lines 6-15).  The Python set
`connected_peers` is a duplicate-free list, the dict `peer_nicknames` a
key-unique association list (`ChatState.WF` below records both). -/
structure ChatState where
  nickname : String
  my_peer_id : List Nat
  messages : List BitchatMessage := []
  connected_peers : List String := []
  peer_nicknames : List (String × String) := []
  current_channel : Option String := none
deriving DecidableEq, Repr

/-- `ChatState.__init__` (chat_state.py lines 9-15). -/
def ChatState.init (nickname : String) (my_peer_id : List Nat) : ChatState :=
  { nickname := nickname, my_peer_id := my_peer_id }

/-- `ChatState.add_message` (chat_state.py lines 17-25); printing is output
only. -/
def ChatState.add_message (s : ChatState) (m : BitchatMessage) : ChatState :=
  { s with messages := s.messages ++ [m] }

/-- `ChatState.add_peer` (chat_state.py lines 32-38): insert into the set and
the nickname dict only when the address is new. -/
def ChatState.add_peer (s : ChatState) (peer_address : String)
    (peer_nickname : String) : ChatState :=
  if peer_address ∈ s.connected_peers then s
  else
    { s with connected_peers := peer_address :: s.connected_peers,
             peer_nicknames := (peer_address, peer_nickname) :: s.peer_nicknames }

/-- `dict.pop(key, default)`: remove the entry with the given key (keys are
unique in a dict, so erasing the first match suffices). -/
def popKey (l : List (String × String)) (a : String) : List (String × String) :=
  l.eraseP (fun q => q.1 == a)

/-- `ChatState.remove_peer` (chat_state.py lines 40-45): remove from the set
and pop the nickname only when the address is present. -/
def ChatState.remove_peer (s : ChatState) (peer_address : String) : ChatState :=
  if peer_address ∈ s.connected_peers then
    { s with connected_peers := s.connected_peers.erase peer_address,
             peer_nicknames := popKey s.peer_nicknames peer_address }
  else s

/-- Key set of the peer-nickname map. -/
def peerKeys (s : ChatState) : List String := s.peer_nicknames.map Prod.fst

/-- The implicit invariant of C10: the set of connected peer addresses equals
the key set of the peer-nickname map (stated as mutual inclusion, which is
decidable). -/
def peerInv (s : ChatState) : Prop :=
  (∀ a ∈ s.connected_peers, a ∈ peerKeys s) ∧
  (∀ a ∈ peerKeys s, a ∈ s.connected_peers)

/-- Well-formedness: what Python's `set` and `dict` guarantee for free
(no duplicate members / keys), together with the C10 invariant. -/
def ChatState.WF (s : ChatState) : Prop :=
  s.connected_peers.Nodup ∧ (peerKeys s).Nodup ∧ peerInv s

/-! ## Broadcast dispatcher (`ble_service.py`, `BLEService.broadcast`) -/

/-- `BLEService.broadcast` lines 132-136: the write tasks target every client
in the table that `is_connected`.  A client is modelled as its address paired
with its `is_connected` flag. -/
def broadcastWrites (clients : List (String × Bool)) : List String :=
  (clients.filter (fun cl => cl.2)).map Prod.fst

/-- `BLEService.broadcast` lines 137-143: `asyncio.gather(..,
return_exceptions=True)` yields one result per task in order, failures not
cancelling the rest; `writeFails a` tells whether the write to address `a`
raises.  A failed task at index `i` is reported against
`list(self.clients.keys())[i]` — the unfiltered key list, exactly as in the
source. -/
def broadcastFailures (clients : List (String × Bool))
    (writeFails : String → Bool) : List String :=
  let targets := broadcastWrites clients
  let keys := clients.map Prod.fst
  (List.range targets.length).filterMap (fun i =>
    if writeFails (targets.getD i "") then some (keys.getD i "") else none)

/-- `BLEService.broadcast` line 124: the outgoing message's `sender` field is
overwritten with the local nickname (`message.sender = self.state.nickname`)
before the message is encoded. -/
def broadcastMessageUpdate (nickname : String) (m : BitchatMessage) :
    BitchatMessage :=
  { m with sender := nickname }

/-! ## Connection manager scheduling (`ble_service.py`)

A transition system for one peer address under the asyncio event loop:
`scan_and_connect` (lines 38-52), `connect_to_device` (lines 54-105) and
`on_disconnect` (lines 107-120).  Steps happen between `await` points, which
is where the single-threaded loop can interleave tasks. -/

/-- `MAX_CONNECT_ATTEMPTS = 3` (ble_service.py line 14). -/
def MAX_CONNECT_ATTEMPTS : Nat := 3

/-- Program counter of one `connect_to_device` task for this address, at its
yield points: `connecting k` is attempt `k` blocked in `await client.connect()`
(line 65) or its timeout; `retryWait k` is the task sleeping at line 101 after
attempt `k` failed. -/
inductive AttemptPC where
  | connecting (attempt : Nat)
  | retryWait (attempt : Nat)
deriving DecidableEq, Repr

/-- The connection-manager state restricted to one peer address:
whether the address is a key of `self.clients`, a member of
`self.connecting_peers`, a member of `state.connected_peers`, and the live
`connect_to_device` tasks for it. -/
structure ConnState where
  inClients : Bool
  inConnecting : Bool
  connectedPeer : Bool
  tasks : List AttemptPC
deriving DecidableEq, Repr

/-- Before the address is ever discovered. -/
def ConnState.init : ConnState :=
  { inClients := false, inConnecting := false, connectedPeer := false, tasks := [] }

/-- `BLEService.on_disconnect` (lines 107-120) applied to this address:
`remove_peer` (guarded on membership, folded into setting the flag false),
`del self.clients[address]`, `self.connecting_peers.discard(address)`. -/
def onDisconnect (s : ConnState) : ConnState :=
  { s with inClients := false, inConnecting := false, connectedPeer := false }

/-- One scheduler step of the connection manager for a fixed address.

* `discover` — lines 46-48: a sweep sees the device; the guard is
  `address not in self.clients and address not in self.connecting_peers`;
  the address is added to `connecting_peers` and a new task spawned,
  synchronously (no `await` between check, add and spawn).
* `connectFail` / `connectFailLast` — lines 84-101: attempt `k` raises a
  timeout or `BleakError`; the `finally` block sees `client.is_connected`
  false and calls `on_disconnect(client)` (line 98); with retries left the
  task then sleeps (`retryWait k`), on the last attempt it exits the loop.
* `connectSucceed` — lines 67-77: the connect and validation succeed:
  `self.clients[address] = client`, `add_peer`, and the task returns
  (nothing removes the address from `connecting_peers` on this path).
* `validateFail` — lines 78-83 and the `finally`: a connected device lacks
  the characteristic; it is disconnected and the task returns.
* `retryResume` — line 101: the sleeping task wakes and starts attempt
  `k + 1`.
* `remoteDisconnect` — a transport-triggered `on_disconnect` for a live
  connection. -/
inductive Step : ConnState → ConnState → Prop where
  | discover (s : ConnState)
      (h1 : s.inClients = false) (h2 : s.inConnecting = false) :
      Step s { s with inConnecting := true,
                      tasks := AttemptPC.connecting 0 :: s.tasks }
  | connectFail (s : ConnState) (k : Nat) (pre post : List AttemptPC)
      (htask : s.tasks = pre ++ AttemptPC.connecting k :: post)
      (hk : k + 1 < MAX_CONNECT_ATTEMPTS) :
      Step s { onDisconnect s with tasks := pre ++ AttemptPC.retryWait k :: post }
  | connectFailLast (s : ConnState) (k : Nat) (pre post : List AttemptPC)
      (htask : s.tasks = pre ++ AttemptPC.connecting k :: post)
      (hk : k + 1 = MAX_CONNECT_ATTEMPTS) :
      Step s { onDisconnect s with tasks := pre ++ post }
  | connectSucceed (s : ConnState) (k : Nat) (pre post : List AttemptPC)
      (htask : s.tasks = pre ++ AttemptPC.connecting k :: post) :
      Step s { s with inClients := true, connectedPeer := true,
                      tasks := pre ++ post }
  | validateFail (s : ConnState) (k : Nat) (pre post : List AttemptPC)
      (htask : s.tasks = pre ++ AttemptPC.connecting k :: post) :
      Step s { onDisconnect s with tasks := pre ++ post }
  | retryResume (s : ConnState) (k : Nat) (pre post : List AttemptPC)
      (htask : s.tasks = pre ++ AttemptPC.retryWait k :: post) :
      Step s { s with tasks := pre ++ AttemptPC.connecting (k + 1) :: post }
  | remoteDisconnect (s : ConnState) (h : s.inClients = true) :
      Step s (onDisconnect s)

/-! ## Message codec lemmas -/

lemma char_valid_ranges (c : Char) :
    c.toNat < 0xD800 ∨ (0xE000 ≤ c.toNat ∧ c.toNat < 0x110000) := by
  rcases c.valid with h | h
  · exact Or.inl h
  · exact Or.inr h

lemma utf8DecodeAux_encodeChar (c : Char) (rest : List Nat) :
    utf8DecodeAux none (utf8EncodeChar c ++ rest) =
      (utf8DecodeAux none rest).map (fun cs => c :: cs) := by
  have hv := char_valid_ranges c
  have hofnat : Char.ofNat c.toNat = c := Char.ofNat_toNat c
  simp only [utf8EncodeChar]
  set n := c.toNat with hn
  rcases Nat.lt_or_ge n 0x80 with h1 | h1
  · rw [if_pos h1]
    simp only [List.cons_append, List.nil_append, List.append_eq, utf8DecodeAux,
      if_true, if_false]
    rw [if_pos h1, hofnat]
  · rcases Nat.lt_or_ge n 0x800 with h2 | h2
    · rw [if_neg (by omega), if_pos h2]
      simp only [List.cons_append, List.nil_append, List.append_eq, utf8DecodeAux,
        if_true, if_false]
      rw [if_neg (by omega), if_neg (by omega), if_pos (by omega),
        if_pos (show utf8Cont (0x80 + n % 0x40) = true by simp [utf8Cont]; omega),
        show (0xC0 + n / 0x40 - 0xC0) * 0x40 + (0x80 + n % 0x40 - 0x80) = n by omega,
        if_pos (by omega), hofnat]
    · rcases Nat.lt_or_ge n 0x10000 with h3 | h3
      · rw [if_neg (by omega), if_neg (by omega), if_pos h3]
        simp only [List.cons_append, List.nil_append, List.append_eq, utf8DecodeAux,
          if_true, if_false]
        rw [if_neg (by omega), if_neg (by omega), if_neg (by omega), if_pos (by omega),
          if_pos (show utf8Cont (0x80 + n / 0x40 % 0x40) = true by simp [utf8Cont]; omega),
          if_neg (show ¬ (2 = 1) by decide),
          if_pos (show utf8Cont (0x80 + n % 0x40) = true by simp [utf8Cont]; omega),
          show ((0xE0 + n / 0x1000 - 0xE0) * 0x40 + (0x80 + n / 0x40 % 0x40 - 0x80)) * 0x40 +
            (0x80 + n % 0x40 - 0x80) = n by omega,
          if_pos (by omega), hofnat]
      · rw [if_neg (by omega), if_neg (by omega), if_neg (by omega)]
        simp only [List.cons_append, List.nil_append, List.append_eq, utf8DecodeAux,
          if_true, if_false]
        rw [if_neg (by omega), if_neg (by omega), if_neg (by omega), if_neg (by omega),
          if_pos (by omega),
          if_pos (show utf8Cont (0x80 + n / 0x1000 % 0x40) = true by simp [utf8Cont]; omega),
          if_neg (show ¬ (3 = 1) by decide),
          if_pos (show utf8Cont (0x80 + n / 0x40 % 0x40) = true by simp [utf8Cont]; omega),
          if_neg (show ¬ (2 = 1) by decide),
          if_pos (show utf8Cont (0x80 + n % 0x40) = true by simp [utf8Cont]; omega),
          show (((0xF0 + n / 0x40000 - 0xF0) * 0x40 + (0x80 + n / 0x1000 % 0x40 - 0x80)) *
            0x40 + (0x80 + n / 0x40 % 0x40 - 0x80)) * 0x40 + (0x80 + n % 0x40 - 0x80) = n by
            omega,
          if_pos (by omega), hofnat]

lemma utf8_roundtrip (l : List Char) : utf8Decode (utf8Encode l) = some l := by
  rw [utf8Decode]
  induction l with
  | nil => rfl
  | cons c cs ih =>
    rw [utf8Encode, utf8DecodeAux_encodeChar, ih]
    rfl

lemma splitOnPipe_no_pipe {a : List Char} (ha : '|' ∉ a) : splitOnPipe a = [a] := by
  induction a with
  | nil => rfl
  | cons c a ih =>
    have hc : ¬ (c = '|') := fun h => ha (h ▸ List.mem_cons_self c a)
    rw [splitOnPipe, if_neg hc, ih (fun h => ha (List.mem_cons_of_mem c h))]

lemma splitOnPipe_append {a : List Char} (b : List Char) (ha : '|' ∉ a) :
    splitOnPipe (a ++ '|' :: b) = a :: splitOnPipe b := by
  induction a with
  | nil =>
    simp only [List.nil_append]
    rw [splitOnPipe, if_pos rfl]
  | cons c a ih =>
    have hc : ¬ (c = '|') := fun h => ha (h ▸ List.mem_cons_self c a)
    rw [List.cons_append, splitOnPipe, if_neg hc,
      ih (fun h => ha (List.mem_cons_of_mem c h))]

lemma takeWhile_colon {k : List Char} (v : List Char) (hk : ':' ∉ k) :
    ((k ++ ':' :: v).takeWhile (fun c => c != ':')) = k := by
  induction k with
  | nil => simp [List.takeWhile_cons]
  | cons c k ih =>
    have hc : c != ':' := by
      simp only [bne_iff_ne, ne_eq]
      exact fun h => hk (h ▸ List.mem_cons_self c k)
    rw [List.cons_append, List.takeWhile_cons, hc]
    simp only [if_true]
    rw [ih (fun h => hk (List.mem_cons_of_mem c h))]

lemma dropWhile_colon {k : List Char} (v : List Char) (hk : ':' ∉ k) :
    ((k ++ ':' :: v).dropWhile (fun c => c != ':')) = ':' :: v := by
  induction k with
  | nil => simp [List.dropWhile_cons]
  | cons c k ih =>
    have hc : c != ':' := by
      simp only [bne_iff_ne, ne_eq]
      exact fun h => hk (h ▸ List.mem_cons_self c k)
    rw [List.cons_append, List.dropWhile_cons, hc]
    simp only [if_true]
    rw [ih (fun h => hk (List.mem_cons_of_mem c h))]

lemma contains_colon (k v : List Char) : (k ++ ':' :: v).contains ':' = true := by
  simp [List.contains]

lemma toNat_ofNat_small {k : Nat} (h : k < 0xD800) : (Char.ofNat k).toNat = k := by
  have hv : k.isValidChar := Or.inl h
  have hlt : k < 2 ^ 32 := by omega
  simp only [Char.ofNat, dif_pos hv, Char.ofNatAux, Char.toNat, UInt32.toNat]
  simp [BitVec.toNat_ofNat, Nat.mod_eq_of_lt hlt]

lemma natToCharsCore_mem {fuel : Nat} :
    ∀ {n : Nat}, ∀ c ∈ natToCharsCore fuel n, 48 ≤ c.toNat ∧ c.toNat ≤ 57 := by
  induction fuel with
  | zero =>
    intro n c hc
    exact absurd hc (List.not_mem_nil c)
  | succ fuel ih =>
    intro n c hc
    rw [natToCharsCore] at hc
    split at hc
    · rename_i hlt
      rw [List.mem_singleton] at hc
      subst hc
      rw [toNat_ofNat_small (by omega)]
      omega
    · rename_i hlt
      rcases List.mem_append.mp hc with h | h
      · exact ih c h
      · rw [List.mem_singleton] at h
        subst h
        rw [toNat_ofNat_small (by omega)]
        omega

lemma natToChars_mem {n : Nat} : ∀ c ∈ natToChars n, 48 ≤ c.toNat ∧ c.toNat ≤ 57 :=
  natToCharsCore_mem

lemma natToChars_ne_nil (n : Nat) : natToChars n ≠ [] := by
  rw [natToChars, natToCharsCore]
  split
  · simp
  · simp

lemma parseDigitsAux_append (xs ys : List Char) (a : Nat) :
    parseDigitsAux (xs ++ ys) a =
      match parseDigitsAux xs a with
      | some m => parseDigitsAux ys m
      | none => none := by
  induction xs generalizing a with
  | nil => rfl
  | cons c xs ih =>
    rw [List.cons_append, parseDigitsAux, parseDigitsAux]
    split
    · exact ih _
    · rfl

lemma isDigit_ofNat {k : Nat} (h1 : 48 ≤ k) (h2 : k ≤ 57) :
    isDigit (Char.ofNat k) = true := by
  rw [isDigit, toNat_ofNat_small (by omega)]
  simp
  omega

lemma parse_natToCharsCore {fuel : Nat} :
    ∀ {n : Nat}, n < 10 ^ fuel → parseDigitsAux (natToCharsCore fuel n) 0 = some n := by
  induction fuel with
  | zero =>
    intro n hn
    rw [natToCharsCore, parseDigitsAux.eq_1]
    congr 1
    omega
  | succ fuel ih =>
    intro n hn
    rw [natToCharsCore]
    split
    · rename_i hlt
      rw [parseDigitsAux.eq_2, if_pos (isDigit_ofNat (by omega) (by omega)),
        toNat_ofNat_small (show 48 + n < 0xD800 by omega), parseDigitsAux.eq_1]
      congr 1
      omega
    · rename_i hlt
      have hdiv : n / 10 < 10 ^ fuel := by
        rw [pow_succ] at hn
        omega
      rw [parseDigitsAux_append, ih hdiv]
      show parseDigitsAux [Char.ofNat (48 + n % 10)] (n / 10) = some n
      rw [parseDigitsAux.eq_2, if_pos (isDigit_ofNat (by omega) (by omega)),
        toNat_ofNat_small (show 48 + n % 10 < 0xD800 by omega), parseDigitsAux.eq_1]
      congr 1
      omega

lemma parse_natToChars (n : Nat) : parseDigitsAux (natToChars n) 0 = some n := by
  rw [natToChars]
  refine parse_natToCharsCore ?_
  calc n < 10 ^ n := Nat.lt_pow_self (by omega) n
    _ ≤ 10 ^ (n + 1) := Nat.pow_le_pow_right (by omega) (by omega)

lemma pyInt_intToChars (t : Int) : pyInt (intToChars t) = some t := by
  rw [intToChars]
  split
  · rename_i hneg
    rw [pyInt, if_pos rfl, if_neg (natToChars_ne_nil _), parse_natToChars]
    simp only [Option.map_some']
    congr 1
    omega
  · rename_i hpos
    obtain ⟨c, cs, hcons⟩ : ∃ c cs, natToChars t.toNat = c :: cs := by
      rcases h : natToChars t.toNat with _ | ⟨c, cs⟩
      · exact absurd h (natToChars_ne_nil _)
      · exact ⟨c, cs, rfl⟩
    have hdig := natToChars_mem c (hcons ▸ List.mem_cons_self c cs)
    rw [hcons, pyInt]
    rw [if_neg (show ¬ (c = '-') from fun h => by subst h; revert hdig; decide),
      if_neg (show ¬ (c = '+') from fun h => by subst h; revert hdig; decide),
      ← hcons, parse_natToChars]
    simp only [Option.map_some']
    congr 1
    omega

/-! ## Packet codec lemmas -/

lemma fromVal_val (t : MessageType) : MessageType.fromVal t.val = some t := by
  cases t <;> rfl

lemma pad8_eq {s : List Nat} (h : s.length = 8) : pad8 s = s := by
  rw [pad8, h]
  simp [List.take_of_length_le, h.le]

set_option maxHeartbeats 4000000

/-- Decoding the frame of a packet with no recipient and no signature. -/
lemma unpack_frame_nn (ty : MessageType) (ttl ts : Nat) (sender P : List Nat)
    (hts : ts < 2 ^ 64) (hsender : sender.length = 8) (hP : P.length ≤ 65535) :
    BitchatPacket.unpack ([1, ty.val, ttl] ++ be8 ts ++
        [0, P.length / 256, P.length % 256] ++ sender ++ P) =
      .ok ⟨1, ty, ttl, ts, sender, none, P, none⟩ := by
  have hplen : 256 * (P.length / 256) + P.length % 256 = P.length := by omega
  simp only [BitchatPacket.unpack, be8, List.cons_append, List.nil_append,
    List.append_assoc, List.getD_cons_zero, List.getD_cons_succ,
    List.drop_succ_cons, List.drop_zero, List.take_succ_cons, List.take_zero,
    List.length_cons, List.length_append, hsender,
    List.drop_left' hsender, List.take_left' hsender, hplen, List.take_length,
    List.take_left, fromVal_val, VERSION, Flags.HAS_RECIPIENT,
    Flags.HAS_SIGNATURE, RECIPIENT_ID_SIZE, SIGNATURE_SIZE]
  rw [if_neg (by omega), if_neg (by decide), if_neg (by decide), if_neg (by omega),
    if_neg (by decide)]
  simp only [Except.ok.injEq, BitchatPacket.mk.injEq, beVal, List.foldl, and_true, true_and]
  omega

/-- Decoding the frame of a packet with a recipient and no signature. -/
lemma unpack_frame_rn (ty : MessageType) (ttl ts : Nat) (sender r P : List Nat)
    (hts : ts < 2 ^ 64) (hsender : sender.length = 8) (hr : r.length = 8)
    (hP : P.length ≤ 65535) :
    BitchatPacket.unpack ([1, ty.val, ttl] ++ be8 ts ++
        [1, P.length / 256, P.length % 256] ++ sender ++ r ++ P) =
      .ok ⟨1, ty, ttl, ts, sender, some r, P, none⟩ := by
  have hplen : 256 * (P.length / 256) + P.length % 256 = P.length := by omega
  simp only [BitchatPacket.unpack, be8, List.cons_append, List.nil_append,
    List.append_assoc, List.getD_cons_zero, List.getD_cons_succ,
    List.drop_succ_cons, List.drop_zero, List.take_succ_cons, List.take_zero,
    List.length_cons, List.length_append, hsender, hr,
    List.drop_left' hsender, List.take_left' hsender, List.take_left' hr,
    hplen, List.take_length, List.take_left, fromVal_val, VERSION,
    Flags.HAS_RECIPIENT, Flags.HAS_SIGNATURE, RECIPIENT_ID_SIZE, SIGNATURE_SIZE]
  rw [if_neg (by omega), if_neg (by decide), if_pos (by decide), if_neg (by omega),
    if_neg (by omega), if_neg (by decide)]
  have hpay : List.take P.length (List.drop 16 (sender ++ (r ++ P))) = P := by
    rw [show (16 : Nat) = sender.length + 8 by omega, List.drop_append,
      show (8 : Nat) = r.length + 0 by omega, List.drop_append, List.drop_zero,
      List.take_length]
  rw [hpay]
  simp only [Except.ok.injEq, BitchatPacket.mk.injEq, beVal, List.foldl, and_true, true_and]
  omega

/-- Decoding the frame of a packet with no recipient and a signature. -/
lemma unpack_frame_ns (ty : MessageType) (ttl ts : Nat) (sender P s : List Nat)
    (hts : ts < 2 ^ 64) (hsender : sender.length = 8) (hs : s.length = 64)
    (hP : P.length ≤ 65535) :
    BitchatPacket.unpack ([1, ty.val, ttl] ++ be8 ts ++
        [2, P.length / 256, P.length % 256] ++ sender ++ P ++ s) =
      .ok ⟨1, ty, ttl, ts, sender, none, P, some s⟩ := by
  have hplen : 256 * (P.length / 256) + P.length % 256 = P.length := by omega
  simp only [BitchatPacket.unpack, be8, List.cons_append, List.nil_append,
    List.append_assoc, List.getD_cons_zero, List.getD_cons_succ,
    List.drop_succ_cons, List.drop_zero, List.take_succ_cons, List.take_zero,
    List.length_cons, List.length_append, hsender, hs,
    List.drop_left' hsender, List.take_left' hsender, hplen, List.take_length,
    List.take_left, fromVal_val, VERSION, Flags.HAS_RECIPIENT,
    Flags.HAS_SIGNATURE, RECIPIENT_ID_SIZE, SIGNATURE_SIZE]
  rw [if_neg (by omega), if_neg (by decide), if_neg (by decide), if_neg (by omega),
    if_pos (by decide), if_neg (by omega)]
  have hsig2 : List.take 64 (List.drop (22 + P.length) (1 :: ty.val :: ttl ::
      ts / 2 ^ 56 % 256 :: ts / 2 ^ 48 % 256 :: ts / 2 ^ 40 % 256 :: ts / 2 ^ 32 % 256 ::
      ts / 2 ^ 24 % 256 :: ts / 2 ^ 16 % 256 :: ts / 2 ^ 8 % 256 :: ts % 256 ::
      2 :: P.length / 256 :: P.length % 256 :: (sender ++ (P ++ s)))) = s := by
    have e1 : (1 :: ty.val :: ttl :: ts / 2 ^ 56 % 256 :: ts / 2 ^ 48 % 256 ::
        ts / 2 ^ 40 % 256 :: ts / 2 ^ 32 % 256 :: ts / 2 ^ 24 % 256 :: ts / 2 ^ 16 % 256 ::
        ts / 2 ^ 8 % 256 :: ts % 256 :: 2 :: P.length / 256 :: P.length % 256 ::
        (sender ++ (P ++ s))) =
        ([1, ty.val, ttl, ts / 2 ^ 56 % 256, ts / 2 ^ 48 % 256, ts / 2 ^ 40 % 256,
          ts / 2 ^ 32 % 256, ts / 2 ^ 24 % 256, ts / 2 ^ 16 % 256, ts / 2 ^ 8 % 256,
          ts % 256, 2, P.length / 256, P.length % 256] ++ (sender ++ (P ++ s))) := rfl
    rw [e1, show 22 + P.length = ([1, ty.val, ttl, ts / 2 ^ 56 % 256, ts / 2 ^ 48 % 256,
        ts / 2 ^ 40 % 256, ts / 2 ^ 32 % 256, ts / 2 ^ 24 % 256, ts / 2 ^ 16 % 256,
        ts / 2 ^ 8 % 256, ts % 256, 2, P.length / 256, P.length % 256] : List Nat).length +
        (8 + P.length) by simp only [List.length_cons, List.length_nil]; omega,
      List.drop_append,
      show 8 + P.length = sender.length + (P.length + 0) by omega, List.drop_append,
      List.drop_append, List.drop_zero, ← hs, List.take_length]
  rw [hsig2]
  simp only [Except.ok.injEq, BitchatPacket.mk.injEq, beVal, List.foldl, and_true, true_and]
  omega

/-- Decoding the frame of a packet with both a recipient and a signature. -/
lemma unpack_frame_rs (ty : MessageType) (ttl ts : Nat) (sender r P s : List Nat)
    (hts : ts < 2 ^ 64) (hsender : sender.length = 8) (hr : r.length = 8)
    (hs : s.length = 64) (hP : P.length ≤ 65535) :
    BitchatPacket.unpack ([1, ty.val, ttl] ++ be8 ts ++
        [3, P.length / 256, P.length % 256] ++ sender ++ r ++ P ++ s) =
      .ok ⟨1, ty, ttl, ts, sender, some r, P, some s⟩ := by
  have hplen : 256 * (P.length / 256) + P.length % 256 = P.length := by omega
  simp only [BitchatPacket.unpack, be8, List.cons_append, List.nil_append,
    List.append_assoc, List.getD_cons_zero, List.getD_cons_succ,
    List.drop_succ_cons, List.drop_zero, List.take_succ_cons, List.take_zero,
    List.length_cons, List.length_append, hsender, hr, hs,
    List.drop_left' hsender, List.take_left' hsender, List.take_left' hr,
    hplen, List.take_length, List.take_left, fromVal_val, VERSION,
    Flags.HAS_RECIPIENT, Flags.HAS_SIGNATURE, RECIPIENT_ID_SIZE, SIGNATURE_SIZE]
  rw [if_neg (by omega), if_neg (by decide), if_pos (by decide), if_neg (by omega),
    if_neg (by omega), if_pos (by decide), if_neg (by omega)]
  have hpay : List.take P.length (List.drop 16 (sender ++ (r ++ (P ++ s)))) = P := by
    rw [show (16 : Nat) = sender.length + 8 by omega, List.drop_append,
      show (8 : Nat) = r.length + 0 by omega, List.drop_append, List.drop_zero,
      List.take_left]
  have hsig2 : List.take 64 (List.drop (30 + P.length) (1 :: ty.val :: ttl ::
      ts / 2 ^ 56 % 256 :: ts / 2 ^ 48 % 256 :: ts / 2 ^ 40 % 256 :: ts / 2 ^ 32 % 256 ::
      ts / 2 ^ 24 % 256 :: ts / 2 ^ 16 % 256 :: ts / 2 ^ 8 % 256 :: ts % 256 ::
      3 :: P.length / 256 :: P.length % 256 :: (sender ++ (r ++ (P ++ s))))) = s := by
    have e1 : (1 :: ty.val :: ttl :: ts / 2 ^ 56 % 256 :: ts / 2 ^ 48 % 256 ::
        ts / 2 ^ 40 % 256 :: ts / 2 ^ 32 % 256 :: ts / 2 ^ 24 % 256 :: ts / 2 ^ 16 % 256 ::
        ts / 2 ^ 8 % 256 :: ts % 256 :: 3 :: P.length / 256 :: P.length % 256 ::
        (sender ++ (r ++ (P ++ s)))) =
        ([1, ty.val, ttl, ts / 2 ^ 56 % 256, ts / 2 ^ 48 % 256, ts / 2 ^ 40 % 256,
          ts / 2 ^ 32 % 256, ts / 2 ^ 24 % 256, ts / 2 ^ 16 % 256, ts / 2 ^ 8 % 256,
          ts % 256, 3, P.length / 256, P.length % 256] ++ (sender ++ (r ++ (P ++ s)))) := rfl
    rw [e1, show 30 + P.length = ([1, ty.val, ttl, ts / 2 ^ 56 % 256, ts / 2 ^ 48 % 256,
        ts / 2 ^ 40 % 256, ts / 2 ^ 32 % 256, ts / 2 ^ 24 % 256, ts / 2 ^ 16 % 256,
        ts / 2 ^ 8 % 256, ts % 256, 3, P.length / 256, P.length % 256] : List Nat).length +
        (16 + P.length) by simp only [List.length_cons, List.length_nil]; omega,
      List.drop_append,
      show 16 + P.length = sender.length + (8 + P.length) by omega, List.drop_append,
      show 8 + P.length = r.length + (P.length + 0) by omega, List.drop_append,
      List.drop_append, List.drop_zero, ← hs, List.take_length]
  rw [hpay, hsig2]
  simp only [Except.ok.injEq, BitchatPacket.mk.injEq, beVal, List.foldl, true_and, and_true]
  omega

/-- Encoding a packet with no recipient and no signature. -/
lemma pack_eq_nn (ty : MessageType) (ttl ts : Nat) (sender P : List Nat)
    (httl : ttl < 256) (hts : ts < 2 ^ 64) (hsid : sender.length = 8)
    (hpl : P.length ≤ 65535) :
    BitchatPacket.pack ⟨1, ty, ttl, ts, sender, none, P, none⟩ =
      some ([1, ty.val, ttl] ++ be8 ts ++ [0, P.length / 256, P.length % 256] ++
        sender ++ P) := by
  simp only [BitchatPacket.pack]
  rw [if_pos ⟨by omega, httl, hts, by omega⟩]
  simp [pad8_eq hsid, Flags.HAS_RECIPIENT, Flags.HAS_SIGNATURE]

/-- Encoding a packet with a recipient and no signature. -/
lemma pack_eq_rn (ty : MessageType) (ttl ts : Nat) (sender r P : List Nat)
    (httl : ttl < 256) (hts : ts < 2 ^ 64) (hsid : sender.length = 8)
    (hpl : P.length ≤ 65535) :
    BitchatPacket.pack ⟨1, ty, ttl, ts, sender, some r, P, none⟩ =
      some ([1, ty.val, ttl] ++ be8 ts ++ [1, P.length / 256, P.length % 256] ++
        sender ++ r ++ P) := by
  simp only [BitchatPacket.pack]
  rw [if_pos ⟨by omega, httl, hts, by omega⟩]
  simp [pad8_eq hsid, Flags.HAS_RECIPIENT, Flags.HAS_SIGNATURE, List.append_assoc]

/-- Encoding a packet with no recipient and a signature. -/
lemma pack_eq_ns (ty : MessageType) (ttl ts : Nat) (sender P s : List Nat)
    (httl : ttl < 256) (hts : ts < 2 ^ 64) (hsid : sender.length = 8)
    (hpl : P.length ≤ 65535) :
    BitchatPacket.pack ⟨1, ty, ttl, ts, sender, none, P, some s⟩ =
      some ([1, ty.val, ttl] ++ be8 ts ++ [2, P.length / 256, P.length % 256] ++
        sender ++ P ++ s) := by
  simp only [BitchatPacket.pack]
  rw [if_pos ⟨by omega, httl, hts, by omega⟩]
  simp [pad8_eq hsid, Flags.HAS_RECIPIENT, Flags.HAS_SIGNATURE, List.append_assoc]

/-- Encoding a packet with both a recipient and a signature. -/
lemma pack_eq_rs (ty : MessageType) (ttl ts : Nat) (sender r P s : List Nat)
    (httl : ttl < 256) (hts : ts < 2 ^ 64) (hsid : sender.length = 8)
    (hpl : P.length ≤ 65535) :
    BitchatPacket.pack ⟨1, ty, ttl, ts, sender, some r, P, some s⟩ =
      some ([1, ty.val, ttl] ++ be8 ts ++ [3, P.length / 256, P.length % 256] ++
        sender ++ r ++ P ++ s) := by
  simp only [BitchatPacket.pack]
  rw [if_pos ⟨by omega, httl, hts, by omega⟩]
  simp [pad8_eq hsid, Flags.HAS_RECIPIENT, Flags.HAS_SIGNATURE, List.append_assoc]

/-- C1: for every packet with a valid field combination (recipient absent or
8 bytes, signature absent or 64 bytes, sender id 8 bytes, payload at most
65535 bytes, supported version, in-range ttl and timestamp), encoding succeeds
and decoding the encoded bytes yields the original packet. -/
theorem packet_roundtrip (p : BitchatPacket)
    (hv : p.version = VERSION) (httl : p.ttl < 256) (hts : p.timestamp < 2 ^ 64)
    (hsid : p.sender_id.length = SENDER_ID_SIZE)
    (hrid : p.recipient_id = none ∨
      ∃ r, p.recipient_id = some r ∧ r.length = RECIPIENT_ID_SIZE)
    (hpl : p.payload.length ≤ 65535)
    (hsig : p.signature = none ∨
      ∃ s, p.signature = some s ∧ s.length = SIGNATURE_SIZE) :
    ∃ b, p.pack = some b ∧ BitchatPacket.unpack b = .ok p := by
  rcases p with ⟨ver, ty, ttl, ts, sender, rid, P, sg⟩
  simp only [SENDER_ID_SIZE, RECIPIENT_ID_SIZE, SIGNATURE_SIZE, VERSION] at *
  subst hv
  rcases hrid with hrid | ⟨r, hrid, hrl⟩ <;> rcases hsig with hsig | ⟨s, hsig, hsl⟩ <;>
    subst hrid <;> subst hsig
  · exact ⟨_, pack_eq_nn ty ttl ts sender P httl hts hsid hpl,
      unpack_frame_nn ty ttl ts sender P hts hsid hpl⟩
  · exact ⟨_, pack_eq_ns ty ttl ts sender P s httl hts hsid hpl,
      unpack_frame_ns ty ttl ts sender P s hts hsid hsl hpl⟩
  · exact ⟨_, pack_eq_rn ty ttl ts sender r P httl hts hsid hpl,
      unpack_frame_rn ty ttl ts sender r P hts hsid hrl hpl⟩
  · exact ⟨_, pack_eq_rs ty ttl ts sender r P s httl hts hsid hpl,
      unpack_frame_rs ty ttl ts sender r P s hts hsid hrl hsl hpl⟩

/-- Witness for C1 at a concrete packet with recipient and signature present. -/
theorem packet_roundtrip_witness :
    ∃ b, BitchatPacket.pack
        ⟨1, .MESSAGE, 7, 5, List.replicate 8 0, some (List.replicate 8 0xff),
          [104, 101, 108, 108, 111], some (List.replicate 64 1)⟩ = some b ∧
      BitchatPacket.unpack b = .ok
        ⟨1, .MESSAGE, 7, 5, List.replicate 8 0, some (List.replicate 8 0xff),
          [104, 101, 108, 108, 111], some (List.replicate 64 1)⟩ :=
  packet_roundtrip _ rfl (by decide) (by decide) (by decide)
    (Or.inr ⟨_, rfl, by decide⟩) (by decide) (Or.inr ⟨_, rfl, by decide⟩)

/-- C9: the worked example of spec §8 — a `MESSAGE` packet with ttl 7, an
all-zero 8-byte sender id, payload `b"hello"`, no recipient and no signature
encodes to a 27-byte frame laid out exactly as in §6, and decoding that frame
reproduces the original fields. -/
theorem packet_worked_example (ts : Nat) (hts : ts < 2 ^ 64) :
    ∃ b, BitchatPacket.pack
        ⟨VERSION, .MESSAGE, 7, ts, List.replicate 8 0, none,
          [104, 101, 108, 108, 111], none⟩ = some b ∧
      b = [1, 4, 7] ++ be8 ts ++ [0, 0, 5] ++ List.replicate 8 0 ++
        [104, 101, 108, 108, 111] ∧
      b.length = 27 ∧
      BitchatPacket.unpack b = .ok
        ⟨VERSION, .MESSAGE, 7, ts, List.replicate 8 0, none,
          [104, 101, 108, 108, 111], none⟩ := by
  refine ⟨[1, 4, 7] ++ be8 ts ++ [0, 0, 5] ++ List.replicate 8 0 ++
    [104, 101, 108, 108, 111], ?_, rfl, by simp [be8], ?_⟩
  · exact pack_eq_nn .MESSAGE 7 ts (List.replicate 8 0) [104, 101, 108, 108, 111]
      (by omega) hts (by decide) (by decide)
  · exact unpack_frame_nn .MESSAGE 7 ts (List.replicate 8 0) [104, 101, 108, 108, 111]
      hts (by decide) (by decide)

lemma getD_take {l : List Nat} {i k : Nat} (d : Nat) (h : i < k) :
    (l.take k).getD i d = l.getD i d := by
  simp [List.getD_eq_getElem?_getD, List.getElem?_take, h]

/-- Every strict prefix of an encoded no-recipient/no-signature frame is
rejected by a length check. -/
lemma unpack_take_nn (ty : MessageType) (ttl ts : Nat) (sender P : List Nat)
    (hsender : sender.length = 8) (k : Nat) (hk : k < 22 + P.length) :
    BitchatPacket.unpack (([1, ty.val, ttl] ++ be8 ts ++
      [0, P.length / 256, P.length % 256] ++ sender ++ P).take k) =
      .error .Truncated := by
  have hlen : (([1, ty.val, ttl] ++ be8 ts ++
      [0, P.length / 256, P.length % 256] ++ sender ++ P).take k).length = k := by
    simp [be8, hsender]
    omega
  rcases Nat.lt_or_ge k 22 with hk22 | hk22
  · rw [BitchatPacket.unpack, if_pos (by omega)]
  · have e0 : (([1, ty.val, ttl] ++ be8 ts ++
        [0, P.length / 256, P.length % 256] ++ sender ++ P).take k).getD 0 0 = 1 := by
      rw [getD_take _ (by omega)]
      simp [be8]
    have e11 : (([1, ty.val, ttl] ++ be8 ts ++
        [0, P.length / 256, P.length % 256] ++ sender ++ P).take k).getD 11 0 = 0 := by
      rw [getD_take _ (by omega)]
      simp [be8]
    have e12 : (([1, ty.val, ttl] ++ be8 ts ++
        [0, P.length / 256, P.length % 256] ++ sender ++ P).take k).getD 12 0 =
        P.length / 256 := by
      rw [getD_take _ (by omega)]
      simp [be8]
    have e13 : (([1, ty.val, ttl] ++ be8 ts ++
        [0, P.length / 256, P.length % 256] ++ sender ++ P).take k).getD 13 0 =
        P.length % 256 := by
      rw [getD_take _ (by omega)]
      simp [be8]
    simp only [BitchatPacket.unpack, hlen, e0, e11, e12, e13, VERSION,
      Flags.HAS_RECIPIENT, Flags.HAS_SIGNATURE]
    rw [if_neg (by omega), if_neg (by decide), if_neg (by decide), if_pos (by omega)]

/-- Every strict prefix of an encoded recipient/no-signature frame is rejected
by a length check. -/
lemma unpack_take_rn (ty : MessageType) (ttl ts : Nat) (sender r P : List Nat)
    (hsender : sender.length = 8) (hr : r.length = 8) (k : Nat)
    (hk : k < 30 + P.length) :
    BitchatPacket.unpack (([1, ty.val, ttl] ++ be8 ts ++
      [1, P.length / 256, P.length % 256] ++ sender ++ r ++ P).take k) =
      .error .Truncated := by
  have hlen : (([1, ty.val, ttl] ++ be8 ts ++
      [1, P.length / 256, P.length % 256] ++ sender ++ r ++ P).take k).length = k := by
    simp [be8, hsender, hr]
    omega
  rcases Nat.lt_or_ge k 22 with hk22 | hk22
  · rw [BitchatPacket.unpack, if_pos (by omega)]
  · have e0 : (([1, ty.val, ttl] ++ be8 ts ++
        [1, P.length / 256, P.length % 256] ++ sender ++ r ++ P).take k).getD 0 0 = 1 := by
      rw [getD_take _ (by omega)]
      simp [be8]
    have e11 : (([1, ty.val, ttl] ++ be8 ts ++
        [1, P.length / 256, P.length % 256] ++ sender ++ r ++ P).take k).getD 11 0 = 1 := by
      rw [getD_take _ (by omega)]
      simp [be8]
    have e12 : (([1, ty.val, ttl] ++ be8 ts ++
        [1, P.length / 256, P.length % 256] ++ sender ++ r ++ P).take k).getD 12 0 =
        P.length / 256 := by
      rw [getD_take _ (by omega)]
      simp [be8]
    have e13 : (([1, ty.val, ttl] ++ be8 ts ++
        [1, P.length / 256, P.length % 256] ++ sender ++ r ++ P).take k).getD 13 0 =
        P.length % 256 := by
      rw [getD_take _ (by omega)]
      simp [be8]
    simp only [BitchatPacket.unpack, hlen, e0, e11, e12, e13, VERSION,
      Flags.HAS_RECIPIENT, Flags.HAS_SIGNATURE, RECIPIENT_ID_SIZE]
    rcases Nat.lt_or_ge k 30 with hk30 | hk30
    · rw [if_neg (by omega), if_neg (by decide), if_pos (by decide), if_pos (by omega)]
    · rw [if_neg (by omega), if_neg (by decide), if_pos (by decide), if_neg (by omega),
        if_pos (by omega)]

/-- Every strict prefix of an encoded no-recipient/signature frame is rejected
by a length check. -/
lemma unpack_take_ns (ty : MessageType) (ttl ts : Nat) (sender P s : List Nat)
    (hsender : sender.length = 8) (hs : s.length = 64) (k : Nat)
    (hk : k < 22 + P.length + 64) :
    BitchatPacket.unpack (([1, ty.val, ttl] ++ be8 ts ++
      [2, P.length / 256, P.length % 256] ++ sender ++ P ++ s).take k) =
      .error .Truncated := by
  have hlen : (([1, ty.val, ttl] ++ be8 ts ++
      [2, P.length / 256, P.length % 256] ++ sender ++ P ++ s).take k).length = k := by
    simp [be8, hsender, hs]
    omega
  rcases Nat.lt_or_ge k 22 with hk22 | hk22
  · rw [BitchatPacket.unpack, if_pos (by omega)]
  · have e0 : (([1, ty.val, ttl] ++ be8 ts ++
        [2, P.length / 256, P.length % 256] ++ sender ++ P ++ s).take k).getD 0 0 = 1 := by
      rw [getD_take _ (by omega)]
      simp [be8]
    have e11 : (([1, ty.val, ttl] ++ be8 ts ++
        [2, P.length / 256, P.length % 256] ++ sender ++ P ++ s).take k).getD 11 0 = 2 := by
      rw [getD_take _ (by omega)]
      simp [be8]
    have e12 : (([1, ty.val, ttl] ++ be8 ts ++
        [2, P.length / 256, P.length % 256] ++ sender ++ P ++ s).take k).getD 12 0 =
        P.length / 256 := by
      rw [getD_take _ (by omega)]
      simp [be8]
    have e13 : (([1, ty.val, ttl] ++ be8 ts ++
        [2, P.length / 256, P.length % 256] ++ sender ++ P ++ s).take k).getD 13 0 =
        P.length % 256 := by
      rw [getD_take _ (by omega)]
      simp [be8]
    simp only [BitchatPacket.unpack, hlen, e0, e11, e12, e13, VERSION,
      Flags.HAS_RECIPIENT, Flags.HAS_SIGNATURE, SIGNATURE_SIZE]
    rcases Nat.lt_or_ge k (22 + P.length) with hkp | hkp
    · rw [if_neg (by omega), if_neg (by decide), if_neg (by decide), if_pos (by omega)]
    · rw [if_neg (by omega), if_neg (by decide), if_neg (by decide), if_neg (by omega),
        if_pos (by decide), if_pos (by omega)]

/-- Every strict prefix of an encoded recipient/signature frame is rejected by
a length check. -/
lemma unpack_take_rs (ty : MessageType) (ttl ts : Nat) (sender r P s : List Nat)
    (hsender : sender.length = 8) (hr : r.length = 8) (hs : s.length = 64) (k : Nat)
    (hk : k < 30 + P.length + 64) :
    BitchatPacket.unpack (([1, ty.val, ttl] ++ be8 ts ++
      [3, P.length / 256, P.length % 256] ++ sender ++ r ++ P ++ s).take k) =
      .error .Truncated := by
  have hlen : (([1, ty.val, ttl] ++ be8 ts ++
      [3, P.length / 256, P.length % 256] ++ sender ++ r ++ P ++ s).take k).length = k := by
    simp [be8, hsender, hr, hs]
    omega
  rcases Nat.lt_or_ge k 22 with hk22 | hk22
  · rw [BitchatPacket.unpack, if_pos (by omega)]
  · have e0 : (([1, ty.val, ttl] ++ be8 ts ++
        [3, P.length / 256, P.length % 256] ++ sender ++ r ++ P ++ s).take k).getD 0 0 =
        1 := by
      rw [getD_take _ (by omega)]
      simp [be8]
    have e11 : (([1, ty.val, ttl] ++ be8 ts ++
        [3, P.length / 256, P.length % 256] ++ sender ++ r ++ P ++ s).take k).getD 11 0 =
        3 := by
      rw [getD_take _ (by omega)]
      simp [be8]
    have e12 : (([1, ty.val, ttl] ++ be8 ts ++
        [3, P.length / 256, P.length % 256] ++ sender ++ r ++ P ++ s).take k).getD 12 0 =
        P.length / 256 := by
      rw [getD_take _ (by omega)]
      simp [be8]
    have e13 : (([1, ty.val, ttl] ++ be8 ts ++
        [3, P.length / 256, P.length % 256] ++ sender ++ r ++ P ++ s).take k).getD 13 0 =
        P.length % 256 := by
      rw [getD_take _ (by omega)]
      simp [be8]
    simp only [BitchatPacket.unpack, hlen, e0, e11, e12, e13, VERSION,
      Flags.HAS_RECIPIENT, Flags.HAS_SIGNATURE, RECIPIENT_ID_SIZE, SIGNATURE_SIZE]
    rcases Nat.lt_or_ge k 30 with hk30 | hk30
    · rw [if_neg (by omega), if_neg (by decide), if_pos (by decide), if_pos (by omega)]
    · rcases Nat.lt_or_ge k (30 + P.length) with hkp | hkp
      · rw [if_neg (by omega), if_neg (by decide), if_pos (by decide), if_neg (by omega),
          if_pos (by omega)]
      · rw [if_neg (by omega), if_neg (by decide), if_pos (by decide), if_neg (by omega),
          if_neg (by omega), if_pos (by decide), if_pos (by omega)]

/-- C3: every strict prefix of the encoding of a valid packet decodes to the
`Truncated` error (a failed length check in `unpack`), never to a packet. -/
theorem packet_prefix_truncated (p : BitchatPacket)
    (hv : p.version = VERSION) (httl : p.ttl < 256) (hts : p.timestamp < 2 ^ 64)
    (hsid : p.sender_id.length = SENDER_ID_SIZE)
    (hrid : p.recipient_id = none ∨
      ∃ r, p.recipient_id = some r ∧ r.length = RECIPIENT_ID_SIZE)
    (hpl : p.payload.length ≤ 65535)
    (hsig : p.signature = none ∨
      ∃ s, p.signature = some s ∧ s.length = SIGNATURE_SIZE)
    (b : List Nat) (hb : p.pack = some b) (k : Nat) (hk : k < b.length) :
    BitchatPacket.unpack (b.take k) = .error .Truncated := by
  rcases p with ⟨ver, ty, ttl, ts, sender, rid, P, sg⟩
  simp only [SENDER_ID_SIZE, RECIPIENT_ID_SIZE, SIGNATURE_SIZE, VERSION] at *
  subst hv
  rcases hrid with hrid | ⟨r, hrid, hrl⟩ <;> rcases hsig with hsig | ⟨s, hsig, hsl⟩ <;>
    subst hrid <;> subst hsig
  · rw [pack_eq_nn ty ttl ts sender P httl hts hsid hpl, Option.some_inj] at hb
    subst hb
    refine unpack_take_nn ty ttl ts sender P hsid k ?_
    have : ([1, ty.val, ttl] ++ be8 ts ++ [0, P.length / 256, P.length % 256] ++
        sender ++ P).length = 22 + P.length := by
      simp only [List.length_append, List.length_cons, List.length_nil, be8, hsid]
    omega
  · rw [pack_eq_ns ty ttl ts sender P s httl hts hsid hpl, Option.some_inj] at hb
    subst hb
    refine unpack_take_ns ty ttl ts sender P s hsid hsl k ?_
    have : ([1, ty.val, ttl] ++ be8 ts ++ [2, P.length / 256, P.length % 256] ++
        sender ++ P ++ s).length = 22 + P.length + 64 := by
      simp only [List.length_append, List.length_cons, List.length_nil, be8, hsid, hsl]
    omega
  · rw [pack_eq_rn ty ttl ts sender r P httl hts hsid hpl, Option.some_inj] at hb
    subst hb
    refine unpack_take_rn ty ttl ts sender r P hsid hrl k ?_
    have : ([1, ty.val, ttl] ++ be8 ts ++ [1, P.length / 256, P.length % 256] ++
        sender ++ r ++ P).length = 30 + P.length := by
      simp only [List.length_append, List.length_cons, List.length_nil, be8, hsid, hrl]
    omega
  · rw [pack_eq_rs ty ttl ts sender r P s httl hts hsid hpl, Option.some_inj] at hb
    subst hb
    refine unpack_take_rs ty ttl ts sender r P s hsid hrl hsl k ?_
    have : ([1, ty.val, ttl] ++ be8 ts ++ [3, P.length / 256, P.length % 256] ++
        sender ++ r ++ P ++ s).length = 30 + P.length + 64 := by
      simp only [List.length_append, List.length_cons, List.length_nil, be8, hsid,
        hrl, hsl]
    omega

/-- Witness for C3: the 10-byte prefix of a concrete 27-byte frame decodes to
`Truncated`. -/
theorem packet_prefix_truncated_witness :
    BitchatPacket.unpack (([1, 4, 7, 0, 0, 0, 0, 0, 0, 0, 0, 0, 0, 5,
      0, 0, 0, 0, 0, 0, 0, 0, 104, 101, 108, 108, 111] : List Nat).take 10) =
      .error .Truncated :=
  packet_prefix_truncated
    ⟨1, .MESSAGE, 7, 0, List.replicate 8 0, none, [104, 101, 108, 108, 111], none⟩
    rfl (by decide) (by decide) (by decide) (Or.inl rfl) (by decide) (Or.inl rfl)
    _ (by decide) 10 (by decide)

/-- C7: any input at least as long as the fixed header region (through the
8-byte sender id, 22 bytes) whose version byte differs from the supported
version decodes to `VersionMismatch`, never to a packet. -/
theorem packet_version_mismatch (data : List Nat) (hlen : 22 ≤ data.length)
    (hv : data.getD 0 0 ≠ VERSION) :
    BitchatPacket.unpack data = .error .VersionMismatch := by
  rw [BitchatPacket.unpack, if_neg (by omega), if_pos hv]

/-- Witness for C7: a 22-byte input with version byte 2. -/
theorem packet_version_mismatch_witness :
    BitchatPacket.unpack (2 :: List.replicate 21 0) = .error .VersionMismatch :=
  packet_version_mismatch (2 :: List.replicate 21 0) (by decide) (by decide)

/-- Witness for C9 at timestamp 0. -/
theorem packet_worked_example_witness :
    ∃ b, BitchatPacket.pack
        ⟨VERSION, .MESSAGE, 7, 0, List.replicate 8 0, none,
          [104, 101, 108, 108, 111], none⟩ = some b ∧
      b = [1, 4, 7] ++ be8 0 ++ [0, 0, 5] ++ List.replicate 8 0 ++
        [104, 101, 108, 108, 111] ∧
      b.length = 27 ∧
      BitchatPacket.unpack b = .ok
        ⟨VERSION, .MESSAGE, 7, 0, List.replicate 8 0, none,
          [104, 101, 108, 108, 111], none⟩ :=
  packet_worked_example 0 (by decide)

/-! ## Message codec round trip and totality (C5, C6) -/

/-- C5 (amended): message codec round trip.  The claim as frozen restricts
only `content` and `sender`; the code additionally requires the `id` and the
channel value to be free of the delimiter characters and the channel to be
absent or non-empty (an empty channel decodes back to `none`).  Under those
conditions decoding the encoded payload reproduces every field, for any fresh
uuid `fid` the decoder might draw. -/
theorem message_roundtrip_amended (fid : String) (m : BitchatMessage)
    (hid : '|' ∉ m.id.data ∧ ':' ∉ m.id.data)
    (hsn : '|' ∉ m.sender.data ∧ ':' ∉ m.sender.data)
    (hct : '|' ∉ m.content.data ∧ ':' ∉ m.content.data)
    (hch : m.channel = none ∨
      ∃ ch, m.channel = some ch ∧ ch ≠ "" ∧ '|' ∉ ch.data ∧ ':' ∉ ch.data) :
    BitchatMessage.from_payload fid m.to_payload = some m := by
  obtain ⟨i, s, c, t, p, ch⟩ := m
  simp only at hid hsn hct hch
  have hpipe_t : '|' ∉ intToChars t := by
    intro hmem
    rw [intToChars] at hmem
    split at hmem
    · rcases List.mem_cons.mp hmem with h | h
      · exact absurd h (by decide)
      · have := natToChars_mem _ h
        revert this
        decide
    · have := natToChars_mem _ hmem
      revert this
      decide
  have hcolon_t : ':' ∉ intToChars t := by
    intro hmem
    rw [intToChars] at hmem
    split at hmem
    · rcases List.mem_cons.mp hmem with h | h
      · exact absurd h (by decide)
      · have := natToChars_mem _ h
        revert this
        decide
    · have := natToChars_mem _ hmem
      revert this
      decide
  have hpipe_p : '|' ∉ (if p then "True".data else "False".data) := by
    cases p <;> decide
  have e : BitchatMessage.encodeChars ⟨i, s, c, t, p, ch⟩ =
      (['i', 'd'] ++ ':' :: i.data) ++ '|' ::
      ((['s'] ++ ':' :: s.data) ++ '|' ::
      ((['c'] ++ ':' :: c.data) ++ '|' ::
      ((['t'] ++ ':' :: intToChars t) ++ '|' ::
      ((['p'] ++ ':' :: (if p then "True".data else "False".data)) ++ '|' ::
      (['c', 'h'] ++ ':' :: (ch.getD "").data))))) := by
    simp [BitchatMessage.encodeChars, List.append_assoc]
  have esplit : splitOnPipe (BitchatMessage.encodeChars ⟨i, s, c, t, p, ch⟩) =
      [['i', 'd'] ++ ':' :: i.data,
       ['s'] ++ ':' :: s.data,
       ['c'] ++ ':' :: c.data,
       ['t'] ++ ':' :: intToChars t,
       ['p'] ++ ':' :: (if p then "True".data else "False".data),
       ['c', 'h'] ++ ':' :: (ch.getD "").data] := by
    rw [e, splitOnPipe_append _ (by simp [hid.1]),
      splitOnPipe_append _ (by simp [hsn.1]),
      splitOnPipe_append _ (by simp [hct.1]),
      splitOnPipe_append _ (by simp [hpipe_t]),
      splitOnPipe_append _ (by simp [hpipe_p]),
      splitOnPipe_no_pipe ?hch6]
    case hch6 =>
      rcases hch with h | ⟨c0, h, hne, hp0, hc0⟩
      · rw [h]
        decide
      · rw [h]
        simp [hp0]
  have epairs : msgPairs (BitchatMessage.encodeChars ⟨i, s, c, t, p, ch⟩) =
      [("ch", String.mk (ch.getD "").data),
       ("p", String.mk (if p then "True".data else "False".data)),
       ("t", String.mk (intToChars t)),
       ("c", String.mk c.data),
       ("s", String.mk s.data),
       ("id", String.mk i.data)] := by
    have tk1 := takeWhile_colon (k := ['i', 'd']) i.data (by decide)
    have dr1 := dropWhile_colon (k := ['i', 'd']) i.data (by decide)
    have tk2 := takeWhile_colon (k := ['s']) s.data (by decide)
    have dr2 := dropWhile_colon (k := ['s']) s.data (by decide)
    have tk3 := takeWhile_colon (k := ['c']) c.data (by decide)
    have dr3 := dropWhile_colon (k := ['c']) c.data (by decide)
    have tk4 := takeWhile_colon (k := ['t']) (intToChars t) (by decide)
    have dr4 := dropWhile_colon (k := ['t']) (intToChars t) (by decide)
    have tk5 := takeWhile_colon (k := ['p']) (if p then "True".data else "False".data)
      (by decide)
    have dr5 := dropWhile_colon (k := ['p']) (if p then "True".data else "False".data)
      (by decide)
    have tk6 := takeWhile_colon (k := ['c', 'h']) (ch.getD "").data (by decide)
    have dr6 := dropWhile_colon (k := ['c', 'h']) (ch.getD "").data (by decide)
    rw [msgPairs, esplit]
    simp only [List.foldl, contains_colon, eq_self_iff_true, if_true,
      tk1, dr1, tk2, dr2, tk3, dr3, tk4, dr4, tk5, dr5, tk6, dr6, List.tail_cons]
  have hdata : ∀ l : List Char, (String.mk l).data = l := fun _ => rfl
  have hmk : ∀ str : String, String.mk str.data = str := fun _ => rfl
  have hpb : (some (String.mk (if p then "True".data else "False".data)) ==
      some ("True" : String)) = p := by
    cases p <;> rfl
  rcases hch with hch | ⟨c0, hch, hne, hp0, hc0⟩ <;> subst hch
  · simp [BitchatMessage.to_payload, BitchatMessage.from_payload, utf8_roundtrip,
      epairs, List.lookup, hdata, hmk, hpb, pyInt_intToChars]
  · simp [BitchatMessage.to_payload, BitchatMessage.from_payload, utf8_roundtrip,
      epairs, List.lookup, hdata, hmk, hpb, pyInt_intToChars, hne]


/-- Counterexample to C5 as stated: two messages whose `content` and `sender`
contain neither `|` nor `:` and which still fail the round trip — one with
`channel = some ""` (decodes to `channel = none`), one with `|` in `id`. -/
theorem message_roundtrip_counterexample :
    (BitchatMessage.from_payload "f" (BitchatMessage.to_payload
        ⟨"i", "a", "b", 0, false, some ""⟩) ≠
      some ⟨"i", "a", "b", 0, false, some ""⟩) ∧
    (BitchatMessage.from_payload "f" (BitchatMessage.to_payload
        ⟨"a|b", "a", "b", 0, false, none⟩) ≠
      some ⟨"a|b", "a", "b", 0, false, none⟩) := by
  decide

/-- Witness for the amended C5 at a concrete message. -/
theorem message_roundtrip_witness :
    BitchatMessage.from_payload "f" (BitchatMessage.to_payload
      ⟨"id1", "alice", "hello", 42, true, some "general"⟩) =
      some ⟨"id1", "alice", "hello", 42, true, some "general"⟩ :=
  message_roundtrip_amended "f" _ (by decide) (by decide) (by decide)
    (Or.inr ⟨"general", rfl, by decide, by decide, by decide⟩)

/-- C6: message decoding is a total function into `Option` (never propagates
a lower-level fault): non-UTF8 input decodes to `none` (`MalformedPayload`),
a parse without the mandatory `c` key decodes to `none`, and a successful
decode with the `s` or `ch` key missing defaults `sender` to `"unknown"` and
`channel` to `none`. -/
theorem from_payload_total_and_defaults (fid : String) (bytes : List Nat) :
    ((∃ m, BitchatMessage.from_payload fid bytes = some m) ∨
      BitchatMessage.from_payload fid bytes = none) ∧
    (utf8Decode bytes = none → BitchatMessage.from_payload fid bytes = none) ∧
    (∀ chars, utf8Decode bytes = some chars →
      (msgPairs chars).lookup "c" = none →
      BitchatMessage.from_payload fid bytes = none) ∧
    (∀ m chars, BitchatMessage.from_payload fid bytes = some m →
      utf8Decode bytes = some chars →
      ((msgPairs chars).lookup "s" = none → m.sender = "unknown") ∧
      ((msgPairs chars).lookup "ch" = none → m.channel = none)) := by
  refine ⟨?_, ?_, ?_, ?_⟩
  · rcases h : BitchatMessage.from_payload fid bytes with _ | m
    · exact Or.inr rfl
    · exact Or.inl ⟨m, rfl⟩
  · intro h
    simp only [BitchatMessage.from_payload, h]
  · intro chars hd hc
    simp only [BitchatMessage.from_payload, hd, hc]
  · intro m chars hm hd
    simp only [BitchatMessage.from_payload, hd] at hm
    rcases hc : List.lookup "c" (msgPairs chars) with _ | content
    · rw [hc] at hm
      simp at hm
    · rw [hc] at hm
      rcases ht : (match List.lookup "t" (msgPairs chars) with
        | none => some (0 : Int)
        | some v => pyInt v.data) with _ | tval
      · rw [ht] at hm
        simp at hm
      · rw [ht] at hm
        simp only [Option.some.injEq] at hm
        subst hm
        constructor
        · intro hs
          simp [hs]
        · intro hch
          simp [hch]

/-- Witness for C6: the payload `b"x"` (no `c` key) decodes to `none`. -/
theorem from_payload_total_witness :
    BitchatMessage.from_payload "f" [120] = none :=
  (from_payload_total_and_defaults "f" [120]).2.2.1 [Char.ofNat 120] (by decide) (by decide)


/-! ## Chat state, broadcast dispatcher and connection manager (C10, C4, C8, C2) -/

lemma keys_popKey (l : List (String × String)) (a : String) :
    (popKey l a).map Prod.fst = (l.map Prod.fst).erase a := by
  induction l with
  | nil => rfl
  | cons q l ih =>
    rw [popKey, List.eraseP_cons, List.map_cons, List.erase_cons]
    by_cases h : q.1 == a
    · have ha : q.1 = a := beq_iff_eq.mp h
      simp [h, ha]
    · simp only [h, cond_false, List.map_cons]
      rw [if_neg (by decide), ← ih, popKey]

/-- C10: the set of connected peer addresses equals the key set of the
peer-nickname map; this holds in the initial state and is preserved by every
`add_peer` and `remove_peer` call (`WF` also carries the no-duplicates facts
that Python's `set`/`dict` provide); `add_peer` on a present address and
`remove_peer` on an absent address change nothing. -/
theorem chat_state_peer_invariant :
    (∀ nickname my_peer_id, ChatState.WF (ChatState.init nickname my_peer_id)) ∧
    (∀ (s : ChatState) (a n : String), ChatState.WF s →
      ChatState.WF (s.add_peer a n) ∧ (a ∈ s.connected_peers → s.add_peer a n = s)) ∧
    (∀ (s : ChatState) (a : String), ChatState.WF s →
      ChatState.WF (s.remove_peer a) ∧ (a ∉ s.connected_peers → s.remove_peer a = s)) := by
  refine ⟨?_, ?_, ?_⟩
  · intro nickname my_peer_id
    exact ⟨List.nodup_nil, List.nodup_nil,
      by simp [peerInv, peerKeys, ChatState.init],
      by simp [peerInv, peerKeys, ChatState.init]⟩
  · intro s a n hwf
    obtain ⟨h1, h2, h3, h4⟩ := hwf
    constructor
    · rw [ChatState.add_peer]
      split
      · exact ⟨h1, h2, h3, h4⟩
      · rename_i hmem
        refine ⟨List.nodup_cons.mpr ⟨hmem, h1⟩, ?_, ?_, ?_⟩
        · refine List.nodup_cons.mpr ⟨fun hk => hmem (h4 a ?_), h2⟩
          simpa [peerKeys] using hk
        · intro x hx
          rcases List.mem_cons.mp hx with rfl | hx
          · simp [peerKeys]
          · simp only [peerKeys, List.map_cons]
            exact List.mem_cons_of_mem _ (h3 x hx)
        · intro x hx
          simp only [peerKeys, List.map_cons, List.mem_cons] at hx
          rcases hx with rfl | hx
          · exact List.mem_cons_self _ _
          · exact List.mem_cons_of_mem _ (h4 x hx)
    · intro hmem
      rw [ChatState.add_peer, if_pos hmem]
  · intro s a hwf
    obtain ⟨h1, h2, h3, h4⟩ := hwf
    constructor
    · rw [ChatState.remove_peer]
      split
      · rename_i hmem
        refine ⟨h1.erase a, ?_, ?_, ?_⟩
        · show ((popKey s.peer_nicknames a).map Prod.fst).Nodup
          rw [keys_popKey]
          exact h2.erase a
        · intro x hx
          have hx2 := (h1.mem_erase_iff).mp hx
          show x ∈ (popKey s.peer_nicknames a).map Prod.fst
          rw [keys_popKey]
          exact (h2.mem_erase_iff).mpr ⟨hx2.1, h3 x hx2.2⟩
        · intro x hx
          simp only [peerKeys] at hx
          rw [keys_popKey] at hx
          have hx2 := (h2.mem_erase_iff).mp hx
          show x ∈ s.connected_peers.erase a
          exact (h1.mem_erase_iff).mpr ⟨hx2.1, h4 x hx2.2⟩
      · exact ⟨h1, h2, h3, h4⟩
    · intro hmem
      rw [ChatState.remove_peer, if_neg hmem]

/-- Witness for C10 at a concrete state for which `add_peer` of a present
address is the identity. -/
theorem chat_state_peer_invariant_witness :
    ChatState.add_peer
      ⟨"me", [], [], ["a"], [("a", "x")], none⟩ "a" "n" =
      ⟨"me", [], [], ["a"], [("a", "x")], none⟩ :=
  ((chat_state_peer_invariant.2.1
    ⟨"me", [], [], ["a"], [("a", "x")], none⟩ "a" "n"
    ⟨by decide, by decide, by decide, by decide⟩).2) (by decide)

lemma filterMap_range_getD (keys : List String) (f : String → Bool) :
    (List.range keys.length).filterMap (fun i =>
      if f (keys.getD i "") then some (keys.getD i "") else none) = keys.filter f := by
  induction keys with
  | nil => rfl
  | cons k ks ih =>
    rw [List.length_cons, List.range_succ_eq_map, List.filterMap_cons, List.filterMap_map]
    have hcomp : ((fun i => if f ((k :: ks).getD i "") then some ((k :: ks).getD i "")
        else none) ∘ Nat.succ) = (fun i => if f (ks.getD i "") then some (ks.getD i "")
        else none) := by
      funext i
      simp [List.getD_cons_succ]
    rw [hcomp, ih]
    by_cases h : f k <;> simp [h, List.filter_cons]

/-- C4: when broadcast is issued over a table of connected clients, a write
task is issued for every one of them, and the reported failed addresses are
exactly the addresses whose writes fail (`gather` with
`return_exceptions=True` isolates failures, and with every table entry
connected the failure index maps back to the right key). -/
theorem broadcast_partial_failure (clients : List (String × Bool))
    (writeFails : String → Bool) (hconn : ∀ cl ∈ clients, cl.2 = true) :
    broadcastWrites clients = clients.map Prod.fst ∧
    broadcastFailures clients writeFails = (clients.map Prod.fst).filter writeFails := by
  have hw : broadcastWrites clients = clients.map Prod.fst := by
    rw [broadcastWrites, List.filter_eq_self.mpr hconn]
  refine ⟨hw, ?_⟩
  rw [broadcastFailures]
  simp only [hw]
  exact filterMap_range_getD (clients.map Prod.fst) writeFails

/-- Witness for C4: three connected peers of which exactly the write to `"b"`
fails; the write list covers all three and the reported failures evaluate to
`["b"]`. -/
theorem broadcast_partial_failure_witness :
    broadcastWrites [("a", true), ("b", true), ("c", true)] =
      [("a", true), ("b", true), ("c", true)].map Prod.fst ∧
    broadcastFailures [("a", true), ("b", true), ("c", true)] (fun x => x == "b") =
      ([("a", true), ("b", true), ("c", true)].map Prod.fst).filter (fun x => x == "b") :=
  broadcast_partial_failure _ _ (by decide)

/-- Counterexample to C8 as stated: `broadcast` overwrites the message's
`sender` with the local nickname (line 124), so a message whose sender is not
the local nickname is changed by the call. -/
theorem broadcast_mutates_sender :
    broadcastMessageUpdate "alice" ⟨"i", "bob", "hi", 0, false, none⟩ ≠
      ⟨"i", "bob", "hi", 0, false, none⟩ := by
  decide

/-- C8 (amended): `broadcast` sets the message's `sender` to the local
nickname and leaves every other field unchanged; in particular the message is
unchanged exactly when its sender already equals the local nickname. -/
theorem broadcast_sender_update (nickname : String) (m : BitchatMessage) :
    (broadcastMessageUpdate nickname m).sender = nickname ∧
    (broadcastMessageUpdate nickname m).id = m.id ∧
    (broadcastMessageUpdate nickname m).content = m.content ∧
    (broadcastMessageUpdate nickname m).timestamp = m.timestamp ∧
    (broadcastMessageUpdate nickname m).is_private = m.is_private ∧
    (broadcastMessageUpdate nickname m).channel = m.channel ∧
    (m.sender = nickname → broadcastMessageUpdate nickname m = m) := by
  refine ⟨rfl, rfl, rfl, rfl, rfl, rfl, ?_⟩
  intro h
  cases m
  simp only [broadcastMessageUpdate]
  simp_all

/-- Witness for the amended C8 at a message already stamped with the local
nickname. -/
theorem broadcast_sender_update_witness :
    broadcastMessageUpdate "a" ⟨"i", "a", "hi", 0, false, none⟩ =
      ⟨"i", "a", "hi", 0, false, none⟩ :=
  (broadcast_sender_update "a" ⟨"i", "a", "hi", 0, false, none⟩).2.2.2.2.2.2 rfl

/-- C2 is violated by the code: a state with two concurrently live
`connect_to_device` tasks for the same address is reachable.  The trace: a
sweep discovers the peer and spawns an attempt; the attempt fails and its
`finally` block calls `on_disconnect`, which removes the address from
`connecting_peers` (line 120) while the task sleeps before retrying; the next
sweep then sees the address in neither `clients` nor `connecting_peers` and
spawns a second attempt. -/
theorem duplicate_connect_reachable :
    ∃ s : ConnState, Relation.ReflTransGen Step ConnState.init s ∧
      2 ≤ s.tasks.length := by
  have h1 : Step ConnState.init
      ⟨false, true, false, [AttemptPC.connecting 0]⟩ :=
    Step.discover ConnState.init rfl rfl
  have h2 : Step ⟨false, true, false, [AttemptPC.connecting 0]⟩
      ⟨false, false, false, [AttemptPC.retryWait 0]⟩ :=
    Step.connectFail _ 0 [] [] rfl (by decide)
  have h3 : Step ⟨false, false, false, [AttemptPC.retryWait 0]⟩
      ⟨false, true, false, [AttemptPC.connecting 0, AttemptPC.retryWait 0]⟩ :=
    Step.discover _ rfl rfl
  exact ⟨_, Relation.ReflTransGen.tail
    (Relation.ReflTransGen.tail
      (Relation.ReflTransGen.tail Relation.ReflTransGen.refl h1) h2) h3,
    by decide⟩

end Bitchat
